import Mathlib

/-!
Shallow embedding of the Sybase-to-PostgreSQL migration tool
(src/data_migration.py, src/backup_restore.py, src/schema_migration.py).

Rows of the migrated table are modelled by their primary-key column `id`,
their timestamp column `ts` (the `updated_at` column driving incremental
sync) and one abstract payload column `val`.  The target PostgreSQL table
is a list of such rows; `upsert` models
`INSERT ... ON CONFLICT (id) DO UPDATE` (replace the row with the same id,
otherwise append).  Failures of individual `execute` calls are abstracted
by a per-row oracle `f : Row → Bool` (`true` = the statement raises).
-/

namespace SybPgMigration

/-- A row of the `employees` table: primary key `id`, timestamp column
`ts` (`updated_at`), remaining payload abstracted as `val`. -/
structure Row where
  id : Nat
  ts : Int
  val : Int
deriving DecidableEq

/-- `INSERT ... ON CONFLICT (id) DO UPDATE`: if a row with the same `id`
exists it is overwritten by `r`, otherwise `r` is appended
(data_migration.py lines 45-53 and 107-112). -/
def upsert (db : List Row) (r : Row) : List Row :=
  if db.any (fun x => x.id == r.id) then
    db.map (fun x => if x.id == r.id then r else x)
  else
    db ++ [r]

/-- Fuel-driven batching: `rows[i:i+B]` slices of the Python loop
`for i in range(0, len(rows), batch_size)` (data_migration.py line 38).
With `fuel ≥ rows.length` and `B ≥ 1` the fuel never runs out. -/
def chunksFuel (B : Nat) : Nat → List Row → List (List Row)
  | _, [] => []
  | 0, _ :: _ => []
  | fuel + 1, r :: rest => ((r :: rest).take B) :: chunksFuel B fuel ((r :: rest).drop B)

/-- The batches `rows[0:B], rows[B:2B], ...` of a migration run. -/
def chunks (B : Nat) (rows : List Row) : List (List Row) :=
  chunksFuel B rows.length rows

/-- Accumulated state of the batch loop: success and error row counters
plus the committed content of the target table. -/
structure BatchState where
  success : Nat
  error : Nat
  db : List Row
deriving DecidableEq

/-- One iteration of the batch loop (data_migration.py lines 42-62):
if any statement in the batch raises, the transaction is rolled back and
the whole batch is counted as failed; otherwise every row is upserted and
the transaction commits. -/
def processBatch (f : Row → Bool) (st : BatchState) (batch : List Row) : BatchState :=
  if batch.any f then
    { st with error := st.error + batch.length }
  else
    { st with success := st.success + batch.length, db := batch.foldl upsert st.db }

/-- The whole batch loop over a list of batches. -/
def runBatches (f : Row → Bool) (st : BatchState) (bs : List (List Row)) : BatchState :=
  bs.foldl (processBatch f) st

/-- Observable outcome of `migrate_employees_data` / `sync_table_data`:
whether rows were fetched (the functions return early with `False` when
the source is empty), the two counters, the final target content and the
returned boolean. -/
structure MigrationOutcome where
  fetched : Bool
  success : Nat
  error : Nat
  db : List Row
  result : Bool
deriving DecidableEq

/-- `DataMigration.migrate_employees_data` (data_migration.py lines 13-74):
fetch all source rows; with no rows return `False` immediately; otherwise
run the batch loop and return `error_count == 0`. -/
def migrateEmployeesData (B : Nat) (f : Row → Bool) (sourceRows targetDb : List Row) :
    MigrationOutcome :=
  match sourceRows with
  | [] => ⟨false, 0, 0, targetDb, false⟩
  | r :: rest =>
    let st := runBatches f ⟨0, 0, targetDb⟩ (chunks B (r :: rest))
    ⟨true, st.success, st.error, st.db, st.error == 0⟩

/-- `DataMigration.sync_table_data` (data_migration.py lines 76-143) with
the default key column `id`: same algorithm as `migrate_employees_data`,
built from dynamically discovered columns. -/
def syncTableData (B : Nat) (f : Row → Bool) (sourceRows targetDb : List Row) :
    MigrationOutcome :=
  match sourceRows with
  | [] => ⟨false, 0, 0, targetDb, false⟩
  | r :: rest =>
    let st := runBatches f ⟨0, 0, targetDb⟩ (chunks B (r :: rest))
    ⟨true, st.success, st.error, st.db, st.error == 0⟩

/-- Accumulator of `SELECT MAX(ts) FROM table`: `none` on an empty table,
otherwise the maximum. -/
def tsMaxStep (acc : Option Int) (r : Row) : Option Int :=
  match acc with
  | none => some r.ts
  | some m => some (max m r.ts)

/-- `SELECT MAX(timestamp_column) FROM table` against the target
(data_migration.py line 201). -/
def maxTs (db : List Row) : Option Int :=
  db.foldl tsMaxStep none

/-- One iteration of the per-row loop of `incremental_sync`
(data_migration.py lines 235-240): a failing row is logged and skipped,
a succeeding row is upserted and counted. -/
def syncRowStep (f : Row → Bool) (st : Nat × List Row) (r : Row) : Nat × List Row :=
  if f r then st else (st.1 + 1, upsert st.2 r)

/-- Observable outcome of `incremental_sync`: final target content, the
success counter, and the returned boolean. -/
structure SyncOutcome where
  db : List Row
  success : Nat
  result : Bool
deriving DecidableEq

/-- `DataMigration.incremental_sync` (data_migration.py lines 190-254):
read the watermark `MAX(ts)` from the target; if absent delegate to
`sync_table_data`; otherwise select source rows with `ts >` watermark
(strict), upsert each individually skipping failures, and return `True`. -/
def incrementalSync (B : Nat) (f : Row → Bool) (sourceRows targetDb : List Row) :
    SyncOutcome :=
  match maxTs targetDb with
  | none =>
    let o := syncTableData B f sourceRows targetDb
    ⟨o.db, o.success, o.result⟩
  | some w =>
    match sourceRows.filter (fun r => w < r.ts) with
    | [] => ⟨targetDb, 0, true⟩
    | u :: us =>
      let st := (u :: us).foldl (syncRowStep f) (0, targetDb)
      ⟨st.2, st.1, true⟩

/-- `DataMigration.get_table_row_count` (data_migration.py lines 145-166):
`SELECT COUNT(*)`, or `-1` when the query fails (`none` input). -/
def getTableRowCount (db : Option (List Row)) : Int :=
  match db with
  | some rows => rows.length
  | none => -1

/-- `DataMigration.verify_migration` (data_migration.py lines 168-188):
read both counts, return `False` if either read failed (`-1`), else
compare for exact equality. -/
def verifyMigration (src tgt : Option (List Row)) : Bool :=
  let sybaseCount := getTableRowCount src
  let postgresCount := getTableRowCount tgt
  if sybaseCount = -1 ∨ postgresCount = -1 then
    false
  else
    sybaseCount == postgresCount

/-- Terminal state of the crash-safe restore state machine: completed, or
halted at the named failing part (the failing step is identified in the
log and by which resume command is suggested, backup_restore.py
lines 302-320). -/
inductive RestoreOutcome where
  | done
  | failedAt (sectionName : String)
deriving DecidableEq

/-- Observable run of `crash_safe_restore`: the parts attempted in order,
the terminal state, and the returned boolean. -/
structure RestoreRun where
  attempted : List String
  outcome : RestoreOutcome
  result : Bool
deriving DecidableEq

/-- `BackupRestore.crash_safe_restore` (backup_restore.py lines 286-327):
attempt pre-data; on failure return `False`; then data; then post-data;
return `True` only when all three succeeded.  `ok` abstracts
`_restore_section` (`true` = the external pg_restore call succeeds). -/
def crashSafeRestore (ok : String → Bool) : RestoreRun :=
  if ok "pre-data" then
    if ok "data" then
      if ok "post-data" then
        ⟨["pre-data", "data", "post-data"], RestoreOutcome.done, true⟩
      else
        ⟨["pre-data", "data", "post-data"], RestoreOutcome.failedAt "post-data", false⟩
    else
      ⟨["pre-data", "data"], RestoreOutcome.failedAt "data", false⟩
  else
    ⟨["pre-data"], RestoreOutcome.failedAt "pre-data", false⟩

/-- The loop of `BackupRestore._restore_sections` (backup_restore.py
lines 150-163): every requested part is attempted unconditionally and
sorted into the success list or the failed list, in request order. -/
def restoreSectionsLoop (ok : String → Bool) : List String → List String × List String
  | [] => ([], [])
  | s :: rest =>
    let r := restoreSectionsLoop ok rest
    if ok s then (s :: r.1, r.2) else (r.1, s :: r.2)

/-- `BackupRestore._restore_sections` (backup_restore.py lines 144-176):
run the loop over all requested parts, return `True` iff none failed. -/
def restoreSections (ok : String → Bool) (sectionNames : List String) : Bool :=
  (restoreSectionsLoop ok sectionNames).2.isEmpty

/-- Python `str.lower()` on an ASCII type name, applied by
`convert_sybase_to_postgres_type` before the mapping lookup
(schema_migration.py line 150). -/
def lowerString (s : String) : String :=
  String.mk (s.data.map Char.toLower)

/-- The `type_mapping` lookup of
`SchemaMigration.convert_sybase_to_postgres_type` (schema_migration.py
lines 122-150) on an already-lowercased type name; any name with no entry
falls through to `TEXT`. -/
def postgresTypeFor (t : String) (colLength precision scale : Int) : String :=
  if t = "int" then "INTEGER"
  else if t = "smallint" then "SMALLINT"
  else if t = "bigint" then "BIGINT"
  else if t = "tinyint" then "SMALLINT"
  else if t = "decimal" then "NUMERIC(" ++ toString precision ++ "," ++ toString scale ++ ")"
  else if t = "numeric" then "NUMERIC(" ++ toString precision ++ "," ++ toString scale ++ ")"
  else if t = "float" then "DOUBLE PRECISION"
  else if t = "real" then "REAL"
  else if t = "money" then "NUMERIC(19,4)"
  else if t = "smallmoney" then "NUMERIC(10,4)"
  else if t = "char" then "CHAR(" ++ toString colLength ++ ")"
  else if t = "varchar" then "VARCHAR(" ++ toString colLength ++ ")"
  else if t = "text" then "TEXT"
  else if t = "nchar" then "CHAR(" ++ toString colLength ++ ")"
  else if t = "nvarchar" then "VARCHAR(" ++ toString colLength ++ ")"
  else if t = "ntext" then "TEXT"
  else if t = "binary" then "BYTEA"
  else if t = "varbinary" then "BYTEA"
  else if t = "image" then "BYTEA"
  else if t = "bit" then "BOOLEAN"
  else if t = "datetime" then "TIMESTAMP"
  else if t = "smalldatetime" then "TIMESTAMP"
  else if t = "date" then "DATE"
  else if t = "time" then "TIME"
  else if t = "timestamp" then "TIMESTAMP"
  else "TEXT"

/-- `SchemaMigration.convert_sybase_to_postgres_type` (schema_migration.py
lines 120-150): lowercase the source type name and look it up. -/
def convertSybaseToPostgresType (sybaseType : String) (colLength precision scale : Int) :
    String :=
  postgresTypeFor (lowerString sybaseType) colLength precision scale

/-- The keys of the static `type_mapping` dict (schema_migration.py
lines 122-148). -/
def typeMappingKeys : List String :=
  ["int", "smallint", "bigint", "tinyint", "decimal", "numeric", "float", "real",
   "money", "smallmoney", "char", "varchar", "text", "nchar", "nvarchar", "ntext",
   "binary", "varbinary", "image", "bit", "datetime", "smalldatetime", "date",
   "time", "timestamp"]

/-- One entry of the schema descriptor fetched from the Sybase catalog
(schema_migration.py lines 94-108): column name, source type, length,
precision, scale, nullability, primary-key membership. -/
structure SchemaColumn where
  name : String
  dataType : String
  colLength : Int
  precision : Int
  scale : Int
  isNullable : Bool
  isPrimaryKey : Bool
deriving DecidableEq

/-- One column definition of the generated DDL (schema_migration.py
lines 162-180). -/
def columnDefinition (col : SchemaColumn) : String :=
  let pgType := convertSybaseToPostgresType col.dataType col.colLength col.precision col.scale
  let colDef := col.name ++ " " ++ pgType
  if col.isNullable then colDef else colDef ++ " NOT NULL"

/-- `SchemaMigration.generate_postgres_schema` (schema_migration.py
lines 152-194): `none` when the descriptor is empty, otherwise the
`CREATE TABLE` statement with a trailing composite `PRIMARY KEY`
constraint when primary-key columns exist. -/
def generatePostgresSchema (tableName : String) (columns : List SchemaColumn) :
    Option String :=
  match columns with
  | [] => none
  | _ :: _ =>
    let columnDefinitions := columns.map columnDefinition
    let primaryKeys := (columns.filter (fun c => c.isPrimaryKey)).map (fun c => c.name)
    let allDefs :=
      match primaryKeys with
      | [] => columnDefinitions
      | _ :: _ =>
        columnDefinitions ++ ["PRIMARY KEY (" ++ String.intercalate ", " primaryKeys ++ ")"]
    some ("CREATE TABLE " ++ tableName ++ " (\n    " ++
      String.intercalate ",\n    " allDefs ++ "\n)")

/-- The dynamic upsert statement built by `sync_table_data`
(data_migration.py lines 104-112), whitespace normalised: the
`ON CONFLICT` target is the supplied key column and every other column is
updated from `EXCLUDED`. -/
def buildInsertSql (tableName : String) (columns : List String) (keyColumn : String) :
    String :=
  let selectColumns := String.intercalate ", " columns
  let placeholders := String.intercalate ", " (columns.map (fun _ => "%s"))
  let updateSet :=
    String.intercalate ", "
      ((columns.filter (fun c => c ≠ keyColumn)).map (fun c => c ++ " = EXCLUDED." ++ c))
  "INSERT INTO " ++ tableName ++ " (" ++ selectColumns ++ ") VALUES (" ++
    placeholders ++ ") ON CONFLICT (" ++ keyColumn ++ ") DO UPDATE SET " ++ updateSet

/-- The hard-coded `key_column = 'id'` of the incremental-sync delta path
(data_migration.py line 224). -/
def incrementalSyncKeyColumn : String := "id"

/-- The upsert statement built by `incremental_sync` (data_migration.py
lines 223-232): `buildInsertSql` with the hard-coded key column. -/
def incrementalSyncInsertSql (tableName : String) (columns : List String) : String :=
  buildInsertSql tableName columns incrementalSyncKeyColumn

/-- The default of the `key_column` parameter of `sync_table_data`
(data_migration.py line 76), used by the delegation call
`self.sync_table_data(table_name)` at line 206. -/
def syncTableDataDefaultKey : String := "id"

/-! Concrete fixtures used by witnesses and counterexamples. -/

/-- Failure oracle under which every statement succeeds. -/
def noFail : Row → Bool := fun _ => false

/-- Failure oracle under which exactly the row with id 2 raises. -/
def failIdTwo : Row → Bool := fun r => r.id == 2

/-- Restore oracle under which exactly the data part fails. -/
def okDataFail : String → Bool := fun s => !(s == "data")

/-- Three sample source rows. -/
def sampleRows : List Row := [⟨1, 1, 10⟩, ⟨2, 1, 20⟩, ⟨3, 1, 30⟩]

/-! Helper lemmas about batching. -/

/-- With enough fuel and a positive batch size, concatenating the batches
recovers the original row list. -/
theorem chunksFuel_join (B : Nat) (hB : 0 < B) :
    ∀ (fuel : Nat) (rows : List Row), rows.length ≤ fuel →
      (chunksFuel B fuel rows).flatten = rows := by
  intro fuel
  induction fuel with
  | zero =>
    intro rows h
    cases rows with
    | nil => simp [chunksFuel]
    | cons r rest => simp at h
  | succ fuel ih =>
    intro rows h
    cases rows with
    | nil => simp [chunksFuel]
    | cons r rest =>
      simp only [chunksFuel, List.flatten_cons]
      rw [ih]
      · exact List.take_append_drop B (r :: rest)
      · simp only [List.length_drop, List.length_cons] at *
        omega

/-- Concatenating the batches of a run recovers the fetched rows. -/
theorem chunks_join (B : Nat) (hB : 0 < B) (rows : List Row) :
    (chunks B rows).flatten = rows :=
  chunksFuel_join B hB rows.length rows le_rfl

/-- Each iteration of the batch loop adds exactly the batch length to one
of the two counters. -/
theorem runBatches_counts (f : Row → Bool) :
    ∀ (bs : List (List Row)) (st : BatchState),
      (runBatches f st bs).success + (runBatches f st bs).error =
        st.success + st.error + (bs.map List.length).sum := by
  intro bs
  induction bs with
  | nil => intro st; simp [runBatches]
  | cons b rest ih =>
    intro st
    simp only [runBatches, List.foldl_cons, List.map_cons, List.sum_cons]
    rw [show List.foldl (processBatch f) (processBatch f st b) rest =
      runBatches f (processBatch f st b) rest from rfl, ih]
    unfold processBatch
    by_cases hb : b.any f
    · simp only [hb, if_true]
      omega
    · simp only [hb, if_false, Bool.false_eq_true]
      omega

/-- C1: for every run of the batch migrator over N fetched rows and any
batch size B ≥ 1, the reported counts satisfy
success_count + failure_count = N: every fetched row is counted exactly
once, in exactly one committed or rolled-back batch, independent of B. -/
theorem migrate_counts_partition (B : Nat) (f : Row → Bool)
    (sourceRows targetDb : List Row) (hB : 0 < B) :
    (migrateEmployeesData B f sourceRows targetDb).success +
      (migrateEmployeesData B f sourceRows targetDb).error = sourceRows.length := by
  cases sourceRows with
  | nil => simp [migrateEmployeesData]
  | cons r rest =>
    show (runBatches f ⟨0, 0, targetDb⟩ (chunks B (r :: rest))).success +
      (runBatches f ⟨0, 0, targetDb⟩ (chunks B (r :: rest))).error = (r :: rest).length
    rw [runBatches_counts]
    have h1 : (chunks B (r :: rest)).flatten = r :: rest := chunks_join B hB _
    have h2 := congrArg List.length h1
    rw [List.length_flatten] at h2
    simpa using h2

/-- Witness for C1: three rows, batch size 2, the batch containing row 2
fails; the counts still partition the three rows. -/
theorem migrate_counts_partition_witness :
    0 < 2 ∧ (migrateEmployeesData 2 failIdTwo sampleRows []).success +
      (migrateEmployeesData 2 failIdTwo sampleRows []).error = 3 :=
  ⟨by decide, migrate_counts_partition 2 failIdTwo sampleRows [] (by decide)⟩

/-- The batch loop over a concatenation splits into two sequential loops. -/
theorem runBatches_append (f : Row → Bool) (st : BatchState) (bs1 bs2 : List (List Row)) :
    runBatches f st (bs1 ++ bs2) = runBatches f (runBatches f st bs1) bs2 :=
  List.foldl_append ..

/-- A batch containing a failing statement only bumps the error counter:
the transaction is rolled back, the committed target content is
untouched. -/
theorem processBatch_failed (f : Row → Bool) (st : BatchState) (b : List Row)
    (hb : b.any f = true) :
    processBatch f st b = { st with error := st.error + b.length } := by
  simp [processBatch, hb]

/-- The error counter is a pure accumulator: starting the loop with `k`
extra recorded failures shifts the final error count by `k` and changes
nothing else. -/
theorem runBatches_error_shift (f : Row → Bool) :
    ∀ (bs : List (List Row)) (st : BatchState) (k : Nat),
      runBatches f { st with error := st.error + k } bs =
        { runBatches f st bs with error := (runBatches f st bs).error + k } := by
  intro bs
  induction bs with
  | nil => intro st k; rfl
  | cons b rest ih =>
    intro st k
    simp only [runBatches, List.foldl_cons]
    have hstep : processBatch f { st with error := st.error + k } b =
        { processBatch f st b with error := (processBatch f st b).error + k } := by
      unfold processBatch
      by_cases hb : b.any f
      · simp [hb, Nat.add_right_comm]
      · simp [hb]
    rw [hstep]
    exact ih (processBatch f st b) k

/-- C2: if any statement of one batch of a run fails, that batch is rolled
back (it contributes nothing to the target content), all of its rows are
counted as failed, and the remaining batches are processed exactly as if
the failed batch were absent — a batch failure never aborts the run and
surrounding batches commit independently. -/
theorem batch_failure_isolated (B : Nat) (f : Row → Bool)
    (sourceRows targetDb : List Row) (bs1 bs2 : List (List Row)) (b : List Row)
    (hrows : sourceRows ≠ [])
    (hchunks : chunks B sourceRows = bs1 ++ b :: bs2)
    (hfail : b.any f = true) :
    migrateEmployeesData B f sourceRows targetDb =
      { fetched := true,
        success := (runBatches f ⟨0, 0, targetDb⟩ (bs1 ++ bs2)).success,
        error := (runBatches f ⟨0, 0, targetDb⟩ (bs1 ++ bs2)).error + b.length,
        db := (runBatches f ⟨0, 0, targetDb⟩ (bs1 ++ bs2)).db,
        result := false } := by
  cases sourceRows with
  | nil => exact absurd rfl hrows
  | cons r rest =>
    have hb_ne : b ≠ [] := by
      intro hb
      rw [hb] at hfail
      simp at hfail
    have hlen : 0 < b.length := List.length_pos.mpr hb_ne
    show (⟨true, (runBatches f ⟨0, 0, targetDb⟩ (chunks B (r :: rest))).success,
      (runBatches f ⟨0, 0, targetDb⟩ (chunks B (r :: rest))).error,
      (runBatches f ⟨0, 0, targetDb⟩ (chunks B (r :: rest))).db,
      (runBatches f ⟨0, 0, targetDb⟩ (chunks B (r :: rest))).error == 0⟩ : MigrationOutcome) = _
    rw [hchunks, runBatches_append]
    rw [show runBatches f (runBatches f ⟨0, 0, targetDb⟩ bs1) (b :: bs2) =
      runBatches f (processBatch f (runBatches f ⟨0, 0, targetDb⟩ bs1) b) bs2 from rfl]
    rw [processBatch_failed f _ b hfail, runBatches_error_shift, ← runBatches_append]
    have hres : ((runBatches f ⟨0, 0, targetDb⟩ (bs1 ++ bs2)).error + b.length == 0) = false := by
      have h0 : (runBatches f ⟨0, 0, targetDb⟩ (bs1 ++ bs2)).error + b.length ≠ 0 := by omega
      simpa using h0
    rw [hres]

/-- Witness for C2: three rows, batch size 2; the first batch contains the
failing row 2, is rolled back whole, and the second batch still commits. -/
theorem batch_failure_isolated_witness :
    sampleRows ≠ [] ∧
    chunks 2 sampleRows = [] ++ [(⟨1, 1, 10⟩ : Row), ⟨2, 1, 20⟩] :: [[(⟨3, 1, 30⟩ : Row)]] ∧
    List.any [(⟨1, 1, 10⟩ : Row), ⟨2, 1, 20⟩] failIdTwo = true ∧
    migrateEmployeesData 2 failIdTwo sampleRows [] =
      { fetched := true,
        success := (runBatches failIdTwo ⟨0, 0, []⟩ ([] ++ [[(⟨3, 1, 30⟩ : Row)]])).success,
        error := (runBatches failIdTwo ⟨0, 0, []⟩ ([] ++ [[(⟨3, 1, 30⟩ : Row)]])).error +
          List.length [(⟨1, 1, 10⟩ : Row), ⟨2, 1, 20⟩],
        db := (runBatches failIdTwo ⟨0, 0, []⟩ ([] ++ [[(⟨3, 1, 30⟩ : Row)]])).db,
        result := false } :=
  ⟨by decide, by decide, by decide,
    batch_failure_isolated 2 failIdTwo sampleRows [] [] [[⟨3, 1, 30⟩]]
      [⟨1, 1, 10⟩, ⟨2, 1, 20⟩] (by decide) (by decide) (by decide)⟩

/-- Counterexample for C3: on an empty source, `migrate_employees_data`
leaves the failure count at zero and still returns `False`
(data_migration.py lines 28-30) — refuting both "successful iff
failure_count == 0" and "empty source is a no-op success". -/
theorem empty_source_reported_failure :
    (migrateEmployeesData 2 noFail [] []).error = 0 ∧
    (migrateEmployeesData 2 noFail [] []).result = false := by
  decide

/-- C3 (amended): on a non-empty source the run is reported successful iff
failure_count = 0; an empty source short-circuits with all counts zero,
an unchanged target, and a `False` (failure) report. -/
theorem migrate_success_iff_no_failures_nonempty :
    (∀ (B : Nat) (f : Row → Bool) (sourceRows targetDb : List Row),
      (migrateEmployeesData B f sourceRows targetDb).result =
        (!sourceRows.isEmpty && (migrateEmployeesData B f sourceRows targetDb).error == 0)) ∧
    (∀ (B : Nat) (f : Row → Bool) (targetDb : List Row),
      migrateEmployeesData B f [] targetDb = ⟨false, 0, 0, targetDb, false⟩) := by
  constructor
  · intro B f sourceRows targetDb
    cases sourceRows with
    | nil => simp [migrateEmployeesData]
    | cons r rest => simp [migrateEmployeesData]
  · intro B f targetDb
    rfl

/-- Counterexample for C4: the section-list entry point
`_restore_sections` (backup_restore.py lines 144-176, cited by the claim)
keeps attempting later parts after an earlier one fails: with `data`
failing it still attempts — and succeeds at — `post-data`, instead of
halting. -/
theorem restore_sections_continue_after_failure :
    okDataFail "data" = false ∧
    restoreSectionsLoop okDataFail ["data", "post-data"] = (["post-data"], ["data"]) := by
  decide

/-- C4 (amended): `crash_safe_restore` attempts parts strictly in the
order pre-data, data, post-data, attempts data only after pre-data
succeeded and post-data only after data succeeded, and halts at the first
failing part, which is the last one attempted; the section-list helper
`_restore_sections`, by contrast, attempts every requested part
regardless of earlier failures (each request lands in exactly one of the
success/failed buckets). -/
theorem restore_order_and_halt (ok : String → Bool) :
    (∃ t, (crashSafeRestore ok).attempted ++ t = ["pre-data", "data", "post-data"]) ∧
    ("data" ∈ (crashSafeRestore ok).attempted → ok "pre-data" = true) ∧
    ("post-data" ∈ (crashSafeRestore ok).attempted → ok "data" = true) ∧
    (∀ s, (crashSafeRestore ok).outcome = RestoreOutcome.failedAt s →
      ok s = false ∧ (crashSafeRestore ok).attempted.getLast? = some s) ∧
    (∀ sectionNames : List String,
      ((restoreSectionsLoop ok sectionNames).1).length +
        ((restoreSectionsLoop ok sectionNames).2).length = sectionNames.length) := by
  have hlen : ∀ sectionNames : List String,
      ((restoreSectionsLoop ok sectionNames).1).length +
        ((restoreSectionsLoop ok sectionNames).2).length = sectionNames.length := by
    intro sectionNames
    induction sectionNames with
    | nil => rfl
    | cons s rest ih =>
      simp only [restoreSectionsLoop]
      by_cases hs : ok s
      · simp only [hs, if_true, List.length_cons]
        omega
      · simp only [hs, if_false, Bool.false_eq_true, List.length_cons]
        omega
  cases h1 : ok "pre-data" with
  | false =>
    refine ⟨⟨["data", "post-data"], by simp [crashSafeRestore, h1]⟩, ?_, ?_, ?_, hlen⟩
    · intro hmem
      simp [crashSafeRestore, h1] at hmem
    · intro hmem
      simp [crashSafeRestore, h1] at hmem
    · intro s hs
      simp only [crashSafeRestore, h1, Bool.false_eq_true, if_false] at hs ⊢
      injection hs with h
      subst h
      exact ⟨h1, rfl⟩
  | true =>
    cases h2 : ok "data" with
    | false =>
      refine ⟨⟨["post-data"], by simp [crashSafeRestore, h1, h2]⟩, ?_, ?_, ?_, hlen⟩
      · intro _
        rfl
      · intro hmem
        simp [crashSafeRestore, h1, h2] at hmem
      · intro s hs
        simp only [crashSafeRestore, h1, h2, Bool.false_eq_true, if_true, if_false] at hs ⊢
        injection hs with h
        subst h
        exact ⟨h2, rfl⟩
    | true =>
      cases h3 : ok "post-data" with
      | false =>
        refine ⟨⟨[], by simp [crashSafeRestore, h1, h2, h3]⟩, ?_, ?_, ?_, hlen⟩
        · intro _
          rfl
        · intro _
          rfl
        · intro s hs
          simp only [crashSafeRestore, h1, h2, h3, Bool.false_eq_true, if_true,
            if_false] at hs ⊢
          injection hs with h
          subst h
          exact ⟨h3, rfl⟩
      | true =>
        refine ⟨⟨[], by simp [crashSafeRestore, h1, h2, h3]⟩, ?_, ?_, ?_, hlen⟩
        · intro _
          rfl
        · intro _
          rfl
        · intro s hs
          simp [crashSafeRestore, h1, h2, h3] at hs

/-- Witness for C4 (amended): with exactly the data part failing,
`crash_safe_restore` halts at data, the last part it attempted. -/
theorem restore_order_and_halt_witness :
    okDataFail "data" = false ∧
    (crashSafeRestore okDataFail).attempted.getLast? = some "data" :=
  (restore_order_and_halt okDataFail).2.2.2.1 "data" (by decide)

/-- The per-row loop of the delta path applies exactly the upserts of the
non-failing rows, in order: a failing row is skipped without touching the
target or the remaining rows. -/
theorem syncFold_db (f : Row → Bool) :
    ∀ (rows : List Row) (n : Nat) (db : List Row),
      (rows.foldl (syncRowStep f) (n, db)).2 =
        (rows.filter (fun r => !f r)).foldl upsert db := by
  intro rows
  induction rows with
  | nil => intro n db; rfl
  | cons u us ih =>
    intro n db
    simp only [List.foldl_cons, syncRowStep, List.filter_cons]
    by_cases hu : f u
    · simp only [hu, if_true, Bool.not_true, Bool.false_eq_true, if_false]
      exact ih n db
    · simp only [hu, Bool.false_eq_true, if_false, Bool.not_false, if_true, List.foldl_cons]
      exact ih (n + 1) (upsert db u)

/-- Counterexample for C5: an invocation with no watermark and an empty
source suffers no connection-level error, yet returns `False` — the
delegated `sync_table_data` reports empty-source failure
(data_migration.py lines 98-100, 204-206). -/
theorem sync_false_without_connection_error :
    (incrementalSync 2 noFail [] []).result = false := by
  decide

/-- C5 (amended): the result of an incremental sync cycle depends only on
the watermark branch: with a watermark present the cycle returns true —
each selected row is upserted individually and a single-row failure is
skipped without aborting the remaining rows or changing the true result —
while with the watermark absent the cycle returns the delegated full
sync's result, which is false for an empty source or a failed batch. -/
theorem sync_cycle_result :
    (∀ (B : Nat) (f : Row → Bool) (sourceRows targetDb : List Row),
      (incrementalSync B f sourceRows targetDb).result =
        (match maxTs targetDb with
         | none => (syncTableData B f sourceRows targetDb).result
         | some _ => true)) ∧
    (∀ (B : Nat) (f : Row → Bool) (sourceRows targetDb : List Row) (w : Int),
      maxTs targetDb = some w →
      (incrementalSync B f sourceRows targetDb).db =
        ((sourceRows.filter (fun r => w < r.ts)).filter (fun r => !f r)).foldl
          upsert targetDb) := by
  constructor
  · intro B f sourceRows targetDb
    cases hw : maxTs targetDb with
    | none => simp [incrementalSync, hw]
    | some w =>
      cases hfil : sourceRows.filter (fun r => w < r.ts) with
      | nil => simp [incrementalSync, hw, hfil]
      | cons u us => simp [incrementalSync, hw, hfil]
  · intro B f sourceRows targetDb w hw
    cases hfil : sourceRows.filter (fun r => w < r.ts) with
    | nil => simp [incrementalSync, hw, hfil]
    | cons u us =>
      simp only [incrementalSync, hw, hfil]
      exact syncFold_db f (u :: us) 0 targetDb

/-- Witness for C5 (amended): a cycle with watermark 1 over one selected
row whose upsert fails leaves the target unchanged and still reports
true. -/
theorem sync_cycle_result_witness :
    maxTs [(⟨1, 1, 0⟩ : Row)] = some 1 ∧
    (incrementalSync 2 failIdTwo [(⟨2, 5, 9⟩ : Row)] [(⟨1, 1, 0⟩ : Row)]).db =
      (([(⟨2, 5, 9⟩ : Row)].filter (fun r => (1 : Int) < r.ts)).filter
        (fun r => !failIdTwo r)).foldl upsert [(⟨1, 1, 0⟩ : Row)] :=
  ⟨by decide, sync_cycle_result.2 2 failIdTwo [⟨2, 5, 9⟩] [⟨1, 1, 0⟩] 1 (by decide)⟩

/-- Members of an upserted table are old members or the upserted row. -/
theorem mem_upsert (db : List Row) (x r : Row) (h : r ∈ upsert db x) :
    r ∈ db ∨ r = x := by
  unfold upsert at h
  by_cases hc : db.any (fun y => y.id == x.id)
  · simp only [hc, if_true, List.mem_map] at h
    obtain ⟨y, hy, hyr⟩ := h
    by_cases hyx : y.id == x.id
    · right
      rw [← hyr]
      simp [hyx]
    · left
      rw [← hyr]
      simpa [hyx] using hy
  · simp only [hc, Bool.false_eq_true, if_false, List.mem_append, List.mem_singleton] at h
    exact h

/-- Members of the per-row loop's final table are old members or selected
source rows. -/
theorem mem_syncFold (f : Row → Bool) :
    ∀ (rows : List Row) (st : Nat × List Row) (r : Row),
      r ∈ (rows.foldl (syncRowStep f) st).2 → r ∈ st.2 ∨ r ∈ rows := by
  intro rows
  induction rows with
  | nil => intro st r h; exact Or.inl h
  | cons u us ih =>
    intro st r h
    simp only [List.foldl_cons, syncRowStep] at h
    by_cases hu : f u
    · simp only [hu, if_true] at h
      rcases ih st r h with h1 | h1
      · exact Or.inl h1
      · exact Or.inr (List.mem_cons_of_mem u h1)
    · simp only [hu, Bool.false_eq_true, if_false] at h
      rcases ih (st.1 + 1, upsert st.2 u) r h with h1 | h1
      · rcases mem_upsert st.2 u r h1 with h2 | h2
        · exact Or.inl h2
        · exact Or.inr (h2 ▸ List.mem_cons_self u us)
      · exact Or.inr (List.mem_cons_of_mem u h1)

/-- Once the MAX accumulator holds a value, the final maximum is at least
that value. -/
theorem foldl_tsMax_mono (db : List Row) :
    ∀ (x : Int), ∃ m, db.foldl tsMaxStep (some x) = some m ∧ x ≤ m := by
  induction db with
  | nil => intro x; exact ⟨x, rfl, le_rfl⟩
  | cons u us ih =>
    intro x
    simp only [List.foldl_cons, tsMaxStep]
    obtain ⟨m, hm, hxm⟩ := ih (max x u.ts)
    exact ⟨m, hm, le_trans (le_max_left x u.ts) hxm⟩

/-- The value computed by the MAX accumulator is attained: it is the
initial accumulator or the timestamp of some row. -/
theorem foldl_tsMax_eq_some (db : List Row) :
    ∀ (acc : Option Int) (m : Int), db.foldl tsMaxStep acc = some m →
      acc = some m ∨ ∃ r ∈ db, r.ts = m := by
  induction db with
  | nil => intro acc m h; exact Or.inl h
  | cons u us ih =>
    intro acc m h
    simp only [List.foldl_cons] at h
    rcases ih (tsMaxStep acc u) m h with h1 | h1
    · unfold tsMaxStep at h1
      cases acc with
      | none =>
        right
        exact ⟨u, List.mem_cons_self u us, Option.some.inj h1⟩
      | some a =>
        have hmax := Option.some.inj h1
        rcases max_choice a u.ts with hm | hm
        · left
          rw [← hmax, hm]
        · right
          exact ⟨u, List.mem_cons_self u us, by rw [← hmax, hm]⟩
    · obtain ⟨y, hy, hym⟩ := h1
      exact Or.inr ⟨y, List.mem_cons_of_mem u hy, hym⟩

/-- `SELECT MAX` dominates every row of the table. -/
theorem foldl_tsMax_ge_of_mem (db : List Row) :
    ∀ (acc : Option Int) (r : Row), r ∈ db →
      ∃ m, db.foldl tsMaxStep acc = some m ∧ r.ts ≤ m := by
  induction db with
  | nil => intro acc r h; exact absurd h (List.not_mem_nil r)
  | cons u us ih =>
    intro acc r h
    simp only [List.foldl_cons]
    rcases List.mem_cons.mp h with h1 | h1
    · subst h1
      have hx : ∃ x, tsMaxStep acc r = some x ∧ r.ts ≤ x := by
        cases acc with
        | none => exact ⟨r.ts, rfl, le_rfl⟩
        | some a => exact ⟨max a r.ts, rfl, le_max_right a r.ts⟩
      obtain ⟨x, hx1, hx2⟩ := hx
      rw [hx1]
      obtain ⟨m, hm, hxm⟩ := foldl_tsMax_mono us x
      exact ⟨m, hm, le_trans hx2 hxm⟩
    · exact ih (tsMaxStep acc u) r h1

/-- A watermark read from the target is attained by some target row. -/
theorem maxTs_some_exists (db : List Row) (w : Int) (h : maxTs db = some w) :
    ∃ r ∈ db, w ≤ r.ts := by
  rcases foldl_tsMax_eq_some db none w h with h1 | h1
  · exact absurd h1 (by simp)
  · obtain ⟨r, hr, hrw⟩ := h1
    exact ⟨r, hr, le_of_eq hrw.symm⟩

/-- The maximum timestamp dominates every member of the table. -/
theorem maxTs_ge_of_mem (db : List Row) (r : Row) (h : r ∈ db) :
    ∃ m, maxTs db = some m ∧ r.ts ≤ m :=
  foldl_tsMax_ge_of_mem db none r h

/-- Upserting a row whose timestamp is at least `w` preserves the
existence of a row with timestamp at least `w`. -/
theorem exists_ge_upsert (w : Int) (db : List Row) (x : Row) (hx : w ≤ x.ts)
    (h : ∃ y ∈ db, w ≤ y.ts) : ∃ y ∈ upsert db x, w ≤ y.ts := by
  obtain ⟨y, hy, hyw⟩ := h
  unfold upsert
  by_cases hc : db.any (fun z => z.id == x.id)
  · by_cases hyx : y.id == x.id
    · refine ⟨x, ?_, hx⟩
      have hmem := List.mem_map_of_mem (fun z => if z.id == x.id then x else z) hy
      simpa [hc, hyx] using hmem
    · refine ⟨y, ?_, hyw⟩
      have hmem := List.mem_map_of_mem (fun z => if z.id == x.id then x else z) hy
      simpa [hc, hyx] using hmem
  · exact ⟨y, by simp [hc, List.mem_append, hy], hyw⟩

/-- The per-row loop preserves the existence of a row with timestamp at
least `w` when every looped row exceeds `w`. -/
theorem exists_ge_syncFold (w : Int) (f : Row → Bool) :
    ∀ (rows : List Row) (st : Nat × List Row),
      (∀ r ∈ rows, w < r.ts) → (∃ y ∈ st.2, w ≤ y.ts) →
      ∃ y ∈ (rows.foldl (syncRowStep f) st).2, w ≤ y.ts := by
  intro rows
  induction rows with
  | nil => intro st _ h; exact h
  | cons u us ih =>
    intro st hrows h
    simp only [List.foldl_cons, syncRowStep]
    by_cases hu : f u
    · simp only [hu, if_true]
      exact ih st (fun r hr => hrows r (List.mem_cons_of_mem u hr)) h
    · simp only [hu, Bool.false_eq_true, if_false]
      refine ih (st.1 + 1, upsert st.2 u) (fun r hr => hrows r (List.mem_cons_of_mem u hr)) ?_
      exact exists_ge_upsert w st.2 u (le_of_lt (hrows u (List.mem_cons_self u us))) h

/-- C6: a cycle that starts from an existing watermark `w` writes to the
target only source rows with timestamp strictly greater than `w`, and
after the cycle the maximum timestamp observed in the target is at least
`w` — the watermark never decreases. -/
theorem incremental_sync_watermark (B : Nat) (f : Row → Bool)
    (sourceRows targetDb : List Row) (w : Int) (hw : maxTs targetDb = some w) :
    (∀ r ∈ (incrementalSync B f sourceRows targetDb).db,
      r ∈ targetDb ∨ (w < r.ts ∧ r ∈ sourceRows)) ∧
    (∃ m, maxTs (incrementalSync B f sourceRows targetDb).db = some m ∧ w ≤ m) := by
  cases hfil : sourceRows.filter (fun r => w < r.ts) with
  | nil =>
    simp only [incrementalSync, hw, hfil]
    constructor
    · intro r hr
      exact Or.inl hr
    · exact ⟨w, rfl, le_rfl⟩
  | cons u us =>
    simp only [incrementalSync, hw, hfil]
    have hsel : ∀ r ∈ u :: us, w < r.ts := by
      intro r hr
      have h2 : r ∈ sourceRows.filter (fun r => w < r.ts) := hfil ▸ hr
      simpa using (List.mem_filter.mp h2).2
    constructor
    · intro r hr
      rcases mem_syncFold f (u :: us) (0, targetDb) r hr with h1 | h1
      · exact Or.inl h1
      · right
        have h2 : r ∈ sourceRows.filter (fun r => w < r.ts) := hfil ▸ h1
        have h3 := List.mem_filter.mp h2
        exact ⟨by simpa using h3.2, h3.1⟩
    · obtain ⟨y, hy, hyw⟩ := exists_ge_syncFold w f (u :: us) (0, targetDb) hsel
        (maxTs_some_exists targetDb w hw)
      obtain ⟨m, hm, hym⟩ := maxTs_ge_of_mem _ y hy
      exact ⟨m, hm, le_trans hyw hym⟩

/-- Witness for C6: watermark 1, one selected source row with timestamp 5;
the new target content only adds that row and its maximum is ≥ 1. -/
theorem incremental_sync_watermark_witness :
    maxTs [(⟨1, 1, 0⟩ : Row)] = some 1 ∧
    ((∀ r ∈ (incrementalSync 2 noFail [(⟨2, 5, 9⟩ : Row)] [(⟨1, 1, 0⟩ : Row)]).db,
      r ∈ [(⟨1, 1, 0⟩ : Row)] ∨ ((1 : Int) < r.ts ∧ r ∈ [(⟨2, 5, 9⟩ : Row)])) ∧
    (∃ m, maxTs (incrementalSync 2 noFail [(⟨2, 5, 9⟩ : Row)] [(⟨1, 1, 0⟩ : Row)]).db =
      some m ∧ (1 : Int) ≤ m)) :=
  ⟨by decide, incremental_sync_watermark 2 noFail [⟨2, 5, 9⟩] [⟨1, 1, 0⟩] 1 (by decide)⟩

/-- C7: when the watermark is absent (MAX over the target is NULL, i.e.
the target table is empty), incremental sync delegates to the full-table
sync, whose target state and reported outcome it returns unchanged; and
the full-table sync is the same algorithm as the employees batch
migrator. -/
theorem sync_delegates_full (B : Nat) (f : Row → Bool)
    (sourceRows targetDb : List Row) (hw : maxTs targetDb = none) :
    (incrementalSync B f sourceRows targetDb).db =
      (syncTableData B f sourceRows targetDb).db ∧
    (incrementalSync B f sourceRows targetDb).success =
      (syncTableData B f sourceRows targetDb).success ∧
    (incrementalSync B f sourceRows targetDb).result =
      (syncTableData B f sourceRows targetDb).result ∧
    syncTableData B f sourceRows targetDb = migrateEmployeesData B f sourceRows targetDb := by
  refine ⟨?_, ?_, ?_, ?_⟩
  · simp [incrementalSync, hw]
  · simp [incrementalSync, hw]
  · simp [incrementalSync, hw]
  · cases sourceRows with
    | nil => rfl
    | cons r rest => rfl

/-- Witness for C7: empty target (absent watermark); the incremental sync
of the three sample rows coincides with the full sync and the batch
migrator. -/
theorem sync_delegates_full_witness :
    maxTs [] = none ∧
    ((incrementalSync 2 noFail sampleRows []).db = (syncTableData 2 noFail sampleRows []).db ∧
    (incrementalSync 2 noFail sampleRows []).success =
      (syncTableData 2 noFail sampleRows []).success ∧
    (incrementalSync 2 noFail sampleRows []).result =
      (syncTableData 2 noFail sampleRows []).result ∧
    syncTableData 2 noFail sampleRows [] = migrateEmployeesData 2 noFail sampleRows []) :=
  ⟨rfl, sync_delegates_full 2 noFail sampleRows [] rfl⟩

/-- C8: when both count queries succeed, verification returns true exactly
when the source and target row counts are equal; the result is
deterministic — it is a pure function of the two table contents, so two
runs over the same fixed contents return the same boolean. -/
theorem verify_counts_match :
    ∀ (src tgt : List Row),
      (verifyMigration (some src) (some tgt) = (src.length == tgt.length)) ∧
      verifyMigration (some src) (some tgt) = verifyMigration (some src) (some tgt) := by
  intro src tgt
  refine ⟨?_, rfl⟩
  simp only [verifyMigration, getTableRowCount]
  have h1 : ¬((src.length : Int) = -1 ∨ (tgt.length : Int) = -1) := by
    push_neg
    omega
  rw [if_neg h1]
  by_cases h : src.length = tgt.length
  · simp [h]
  · have h2 : ¬((src.length : Int) = (tgt.length : Int)) := fun he => h (Nat.cast_inj.mp he)
    have hb : (src.length == tgt.length) = false := by simp [h]
    have hbi : (((src.length : Int)) == ((tgt.length : Int))) = false := by simp [h2]
    rw [hb, hbi]

/-- C9: schema generation produces no DDL exactly when the descriptor is
empty, and every column whose lowercased source type has no entry in the
static mapping falls back to the unbounded text type TEXT. -/
theorem schema_generation_empty_and_fallback :
    (∀ (tableName : String) (columns : List SchemaColumn),
      generatePostgresSchema tableName columns = none ↔ columns = []) ∧
    (∀ (sybaseType : String) (colLength precision scale : Int),
      lowerString sybaseType ∉ typeMappingKeys →
      convertSybaseToPostgresType sybaseType colLength precision scale = "TEXT") := by
  constructor
  · intro tableName columns
    cases columns with
    | nil => simp [generatePostgresSchema]
    | cons c cs => simp [generatePostgresSchema]
  · intro sybaseType colLength precision scale h
    unfold convertSybaseToPostgresType postgresTypeFor
    iterate 25 rw [if_neg (fun he => h (by rw [he]; decide))]

/-- Witness for C9: the schema of an empty descriptor is `none`, and the
unmapped source type `geometry` is translated to TEXT. -/
theorem schema_generation_witness :
    (generatePostgresSchema "employees" [] = none) ∧
    lowerString "geometry" ∉ typeMappingKeys ∧
    convertSybaseToPostgresType "geometry" 0 0 0 = "TEXT" :=
  ⟨(schema_generation_empty_and_fallback.1 "employees" []).mpr rfl, by decide,
    schema_generation_empty_and_fallback.2 "geometry" 0 0 0 (by decide)⟩

/-- C10: for every table name and column set, the delta path of
incremental sync builds its upsert statement with the conflict column
fixed to the literal `id` (independent of any actual primary key), and
the delegated full-sync call uses the default key column, also `id`. -/
theorem delta_key_column_fixed :
    (∀ (tableName : String) (columns : List String),
      incrementalSyncInsertSql tableName columns = buildInsertSql tableName columns "id") ∧
    incrementalSyncKeyColumn = "id" ∧ syncTableDataDefaultKey = "id" :=
  ⟨fun _ _ => rfl, rfl, rfl⟩

end SybPgMigration
